import Mathlib

/-
Verification development for the fake-discount detector.

The embedding models the detection pipeline of the repository:
  * `src/rule_detection.py`  — `detect_fake_discount` (rule engine),
  * `src/ml_detection.py`    — score normalization of `train_isolation_forest`
                               and `hybrid_detect_fake_discount`,
  * `src/aggregation.py`     — `aggregate_time_series`.

Conventions of the embedding:
  * Calendar days are integers (`ℤ`); `pd.Timestamp.today().normalize()` is an
    explicit `today : ℤ` parameter.
  * Prices and thresholds are exact rationals (`ℚ`).  A float cell that can be
    NaN (a missing engineered feature) is an `Option ℚ` with `none` for NaN.
  * A value of Python type float that can itself be NaN (the volatility score
    computed as `np.clip(nan, 0, 1) = nan`) is a `PyVal`.
  * Python's `round(x, n)` (round-half-to-even on decimals) is `pyRound`.
  * A Python function that can raise an unhandled exception is modelled in the
    `Except String` monad, the message naming the exception class.
-/

/-- A Python float value: either a rational number or NaN. -/
inductive PyVal : Type where
  | num (q : ℚ)
  | nan
deriving Repr, DecidableEq

/-- `round-half-to-even` of a rational to an integer (the rounding mode of
Python's builtin `round`, idealized over exact decimals). -/
def roundHalfEven (q : ℚ) : ℤ :=
  if q - ⌊q⌋ < 1 / 2 then ⌊q⌋
  else if q - ⌊q⌋ > 1 / 2 then ⌊q⌋ + 1
  else if ⌊q⌋ % 2 = 0 then ⌊q⌋ else ⌊q⌋ + 1

/-- Python's `round(q, n)` over exact decimals. -/
def pyRound (q : ℚ) (n : ℕ) : ℚ :=
  (roundHalfEven (q * 10 ^ n) : ℚ) / 10 ^ n

/-- Maximum of a list in a linear order (`none` on the empty list);
models `.max()` of a pandas index / numpy array of known-good values. -/
def foldMax {α : Type} [LinearOrder α] : List α → Option α
  | [] => none
  | x :: xs => some (xs.foldl max x)

/-- Minimum of a list in a linear order (`none` on the empty list). -/
def foldMin {α : Type} [LinearOrder α] : List α → Option α
  | [] => none
  | x :: xs => some (xs.foldl min x)

/-- `foldMax` with a default for the empty list. -/
def getMaxD {α : Type} [LinearOrder α] (l : List α) (d : α) : α :=
  (foldMax l).getD d

/-- Lexicographic order on character lists by code point (the order pandas
uses when sorting string group keys). -/
def lexLeChars : List Char → List Char → Bool
  | [], _ => true
  | _ :: _, [] => false
  | a :: as, b :: bs =>
    if a.toNat < b.toNat then true
    else if b.toNat < a.toNat then false
    else lexLeChars as bs

/-- Lexicographic order on strings, as a proposition. -/
def strLe (a b : String) : Prop := lexLeChars a.data b.data = true

instance : DecidableRel strLe := fun a b => by unfold strLe; infer_instance

/-- One row of the engineered feature table (`engineered_features.parquet`).
`rolling_z_score` and `volatility_cv` are `none` where the pandas cell is NaN. -/
structure Row : Type where
  product_code : String
  order_date : ℤ
  daily_mean_price : ℚ
  rolling_z_score : Option ℚ := none
  volatility_cv : Option ℚ := none
deriving Repr, DecidableEq

/-- The result dict of `detect_fake_discount` / `hybrid_detect_fake_discount`.
A field that a branch leaves out of the Python dict is `none`. -/
structure DetectionResult : Type where
  product_code : String
  evaluation_date : ℤ
  current_price : Option ℚ := none
  claimed_original_price : Option ℚ := none
  drop_percentage : Option ℚ := none
  discount_status : String
  volatility_score : Option PyVal := none
  explanation : String
  ml_anomaly_score : Option ℚ := none
deriving Repr, DecidableEq

/-- `df[df["product_code"] == product_code].set_index("order_date").sort_index()`:
the product's rows, sorted (stably) by date. -/
def productRows (df : List Row) (pc : String) : List Row :=
  List.insertionSort (fun a b => a.order_date ≤ b.order_date)
    (df.filter (fun r => r.product_code == pc))

/-- `product_df.loc[d, "daily_mean_price"]` for a date `d` present in the
index (first matching row; the pipeline keeps one row per product and day). -/
def lookupPrice : List Row → ℤ → ℚ
  | [], _ => 0
  | r :: rs, d => if r.order_date = d then r.daily_mean_price else lookupPrice rs d

/-- `product_df.loc[start:stop]` on the date index: rows whose date lies in
the closed interval. -/
def sliceRows (pdf : List Row) (start stop : ℤ) : List Row :=
  pdf.filter (fun r => decide (start ≤ r.order_date) && decide (r.order_date ≤ stop))

/-- `recent["daily_mean_price"].max()` (the window is non-empty whenever the
code evaluates this). -/
def maxPrice (recent : List Row) : ℚ :=
  getMaxD (recent.map (fun r => r.daily_mean_price)) 0

/-- `drop_pct = (claimed - current) / claimed if claimed > 0 else 0.0`. -/
def dropFormula (cur cl : ℚ) : ℚ :=
  if cl > 0 then (cl - cur) / cl else 0

/-- `(pre_drop["rolling_z_score"] > spike_z_threshold).any()`; a NaN z-score
compares as False. -/
def hasSpike (pre_drop : List Row) (sz : ℚ) : Bool :=
  pre_drop.any (fun r =>
    match r.rolling_z_score with
    | some z => decide (z > sz)
    | none => false)

/-- The `vol_normalized` computation: if some pre-drop `volatility_cv` is
non-NaN, take the last pre-drop cell (possibly NaN) and apply
`np.clip(v / 0.35, 0.0, 1.0)`; otherwise 0.  `np.clip` of NaN is NaN. -/
def volScore (pre_drop : List Row) : PyVal :=
  if pre_drop.any (fun r => r.volatility_cv.isSome) then
    match pre_drop.getLast? with
    | some r =>
      match r.volatility_cv with
      | some v => PyVal.num (min 1 (max 0 (v / (7 / 20))))
      | none => PyVal.nan
    | none => PyVal.num 0
  else PyVal.num 0

/-- `f-string` percent formatting, idealized over exact decimals. -/
def fmtPct (q : ℚ) : String := toString (pyRound (q * 100) 1) ++ "%"

/-- Two-decimal formatting of a possibly-NaN float. -/
def fmtVol : PyVal → String
  | PyVal.num q => toString (pyRound q 2)
  | PyVal.nan => "nan"

/-- The common decision tail of `detect_fake_discount`: both modes converge
here with resolved `current_price`, `claimed_original_price` and `recent`
window (`rule_detection.py`, the block after the mode branches). -/
def commonDecision (pc : String) (e : ℤ) (cur cl : ℚ) (recent : List Row)
    (dt sz : ℚ) : DetectionResult :=
  let drop_pct := dropFormula cur cl
  let pre_drop := recent.dropLast
  let spike := hasSpike pre_drop sz
  let vol := volScore pre_drop
  let st :=
    if drop_pct < dt then
      ("Genuine", "Genuine: Minor drop of " ++ fmtPct drop_pct ++ " from recent high.")
    else if spike then
      ("Suspicious", "Suspicious: Sharp drop of " ++ fmtPct drop_pct ++
        " after price spike detected. Volatility score: " ++ fmtVol vol ++ ".")
    else
      ("Genuine", "Genuine: Drop of " ++ fmtPct drop_pct ++
        " with no anomalies. Volatility score: " ++ fmtVol vol ++ ".")
  { product_code := pc
    evaluation_date := e
    current_price := some (pyRound cur 2)
    claimed_original_price := some (pyRound cl 2)
    drop_percentage := some (pyRound drop_pct 3)
    discount_status := st.1
    volatility_score := some vol
    explanation := st.2 }

/-- Outcome of resolving the evaluation mode of `detect_fake_discount`:
either a terminal result, the data of the common decision path, or an
unhandled Python exception. -/
inductive Resolved : Type where
  | done (r : DetectionResult)
  | common (e : ℤ) (cur cl : ℚ) (recent : List Row)
  | crash (msg : String)
deriving Repr

/-- The historical-mode tail once the evaluation date `e` is anchored:
current price from the series, 60-day (`wd`) lookback window, `< 5`
observations guard, claimed price as the window maximum. -/
def histAt (pdf : List Row) (pc : String) (e : ℤ) (wd : ℤ) : Resolved :=
  let cur := lookupPrice pdf e
  let recent := sliceRows pdf (e - wd) e
  if recent.length < 5 then
    Resolved.done
      { product_code := pc
        evaluation_date := e
        discount_status := "Insufficient Data"
        volatility_score := some (PyVal.num 0)
        explanation := "Not enough recent historical data for reliable assessment." }
  else Resolved.common e cur (maxPrice recent) recent

/-- Mode resolution of `detect_fake_discount` (`rule_detection.py` lines
34–123): empty product, historical anchoring, real-time validation, and the
uncovered fall-through in which the local `recent` is never bound. -/
def resolveMode (df : List Row) (pc : String) (ed today : ℤ)
    (cur? cl? : Option ℚ) (wd : ℤ) : Resolved :=
  let pdf := productRows df pc
  if pdf.isEmpty then
    Resolved.done
      { product_code := pc
        evaluation_date := ed
        discount_status := "No Data"
        volatility_score := some (PyVal.num 0)
        explanation := "No price data available for this product." }
  else if cur? = none ∧ cl? = none then
    if ed ∈ pdf.map (fun r => r.order_date) then histAt pdf pc ed wd
    else
      let avail := (pdf.map (fun r => r.order_date)).filter (fun d => decide (d ≤ ed))
      if avail.isEmpty then
        Resolved.done
          { product_code := pc
            evaluation_date := ed
            discount_status := "No Data"
            volatility_score := some (PyVal.num 0)
            explanation := "No price data available on or before this date." }
      else histAt pdf pc (getMaxD avail 0) wd
  else if ed = today then
    match cur?, cl? with
    | some c, some l =>
      if c ≤ 0 then
        Resolved.done
          { product_code := pc
            evaluation_date := ed
            discount_status := "Invalid Input"
            explanation := "Please provide valid current and claimed original prices." }
      else if l < c then
        Resolved.done
          { product_code := pc
            evaluation_date := ed
            current_price := some (pyRound c 2)
            claimed_original_price := some (pyRound l 2)
            drop_percentage := some 0
            discount_status := "No Discount"
            volatility_score := some (PyVal.num 0)
            explanation := "Claimed original price is less than current price. No discount detected." }
      else
        let last := getMaxD (pdf.map (fun r => r.order_date)) 0
        let recent := sliceRows pdf (last - wd) last
        if recent.length < 3 then
          Resolved.done
            { product_code := pc
              evaluation_date := ed
              discount_status := "Limited Data"
              volatility_score := some (PyVal.num 0)
              explanation := "Dataset ends with too few usable records in the recent window." }
        else Resolved.common ed c l recent
    | _, _ =>
      Resolved.done
        { product_code := pc
          evaluation_date := ed
          discount_status := "Invalid Input"
          explanation := "Please provide valid current and claimed original prices." }
  else
    match cur?, cl? with
    | some _, some _ => Resolved.crash "UnboundLocalError: recent"
    | _, none => Resolved.crash "TypeError: claimed price is None"
    | none, some l =>
      if l > 0 then Resolved.crash "TypeError: current price is None"
      else Resolved.crash "UnboundLocalError: recent"

/-- `detect_fake_discount` of `src/rule_detection.py`.  `today` models
`pd.Timestamp.today().normalize()`; an `Except.error` is an unhandled Python
exception escaping the function. -/
def detect_fake_discount (df : List Row) (pc : String) (ed today : ℤ)
    (cur? cl? : Option ℚ) (wd : ℤ) (dt sz : ℚ) : Except String DetectionResult :=
  match resolveMode df pc ed today cur? cl? wd with
  | Resolved.done r => Except.ok r
  | Resolved.common e cur cl recent => Except.ok (commonDecision pc e cur cl recent dt sz)
  | Resolved.crash m => Except.error m

/-- `score_dict.get(product_code, 0.0)` in `hybrid_detect_fake_discount`. -/
def mlScore (sd : List (String × ℚ)) (pc : String) : ℚ :=
  (sd.lookup pc).getD 0

/-- `hybrid_detect_fake_discount` of `src/ml_detection.py`: run the rule
engine, look the product up in the anomaly-score table, escalate the status,
extend the explanation. -/
def hybrid_detect_fake_discount (df : List Row) (sd : List (String × ℚ))
    (pc : String) (ed today : ℤ) (cur? cl? : Option ℚ) (wd : ℤ) (dt sz : ℚ) :
    Except String DetectionResult :=
  match detect_fake_discount df pc ed today cur? cl? wd dt sz with
  | Except.error m => Except.error m
  | Except.ok rule =>
    let ml := mlScore sd pc
    let final :=
      if rule.discount_status = "Suspicious" ∧ ml > 1 / 2 then "Highly Suspicious"
      else if rule.discount_status = "Genuine" ∧ ml > 3 / 4 then "Highly Suspicious"
      else rule.discount_status
    Except.ok
      { rule with
        ml_anomaly_score := some (pyRound ml 3)
        discount_status := final
        explanation := rule.explanation ++
          (" ML anomaly score: " ++ toString (pyRound ml 3) ++ " (higher = more abnormal).") }

/-- `scores = -model.decision_function(X)` in `train_isolation_forest`
(`ml_detection.py` line 62): sign inversion so that higher = more anomalous.
The raw decision-function output of the fitted isolation forest is abstracted
as the input list `raw`, one score per product in batch order. -/
def invert_scores (raw : List ℚ) : List ℚ := raw.map (fun s => -s)

/-- The min–max normalization of `train_isolation_forest` (`ml_detection.py`
lines 64–67): all zeros when the inverted scores have equal max and min, else
`(s - min) / (max - min)` elementwise. -/
def normalize_scores (raw : List ℚ) : List ℚ :=
  let scores := invert_scores raw
  let mx := (foldMax scores).getD 0
  let mn := (foldMin scores).getD 0
  if mx = mn then scores.map (fun _ => 0)
  else scores.map (fun s => (s - mn) / (mx - mn))

/-- `score_dict = dict(zip(product_codes, norm_scores))`: the
`AnomalyScoreTable` produced by `train_isolation_forest`. -/
def anomaly_score_table (product_codes : List String) (raw : List ℚ) :
    List (String × ℚ) :=
  product_codes.zip (normalize_scores raw)

/-- One cleaned transaction record (`cleaned_transactions.csv`): `price` is
`none` where numeric coercion failed (NaN). -/
structure Txn : Type where
  product_code : String
  order_date : ℤ
  price : Option ℚ
deriving Repr, DecidableEq

/-- One row of the aggregated daily table (`daily_prices.parquet`), in the
row order produced by the groupby: `daily_mean_price` is `none` where the
cell is NaN (days before the product's first transaction). -/
structure AggRow : Type where
  order_date : ℤ
  product_code : String
  daily_mean_price : Option ℚ
deriving Repr, DecidableEq

/-- `df.dropna(subset=["price"])` after numeric coercion. -/
def cleanTxns (txns : List Txn) : List Txn :=
  txns.filter (fun t => t.price.isSome)

/-- The prices of product `p` on day `d` among the cleaned transactions. -/
def txnPricesAt (clean : List Txn) (p : String) (d : ℤ) : List ℚ :=
  (clean.filter (fun t => decide (t.product_code = p) && decide (t.order_date = d))).filterMap
    (fun t => t.price)

/-- The groupby mean of `price` over the `(day, product)` group, `none` for
an empty group. -/
def meanAt (clean : List Txn) (p : String) (d : ℤ) : Option ℚ :=
  let ps := txnPricesAt clean p d
  if ps.isEmpty then none else some (ps.sum / ps.length)

/-- The most recent day `≤ d` on which product `p` has a transaction. -/
def lastTxnDate (clean : List Txn) (p : String) (d : ℤ) : Option ℤ :=
  foldMax ((clean.filter
    (fun t => decide (t.product_code = p) && decide (t.order_date ≤ d))).map
    (fun t => t.order_date))

/-- Value of the `(d, p)` cell after `groupby(level="product_code").ffill()`:
the group mean of the most recent day `≤ d` with transactions of `p`
(`none` — NaN — when there is no such day). -/
def ffillAt (clean : List Txn) (p : String) (d : ℤ) : Option ℚ :=
  match lastTxnDate clean p d with
  | none => none
  | some d' => meanAt clean p d'

/-- The distinct product codes of the cleaned data in sorted order (pandas
sorts the group keys). -/
def sortedProducts (clean : List Txn) : List String :=
  List.insertionSort strLe ((clean.map (fun t => t.product_code)).dedup)

/-- All days from `lo` to `hi` inclusive: the daily bins generated by
`pd.Grouper(key="order_date", freq="D")` over the whole data range. -/
def dateRange (lo hi : ℤ) : List ℤ :=
  (List.range (hi + 1 - lo).toNat).map (fun (i : ℕ) => lo + (i : ℤ))

/-- `aggregated.groupby("product_code")["order_date"].nunique()` for one
product of the dense table. -/
def dayCount (dense : List AggRow) (p : String) : ℕ :=
  (((dense.filter (fun r => decide (r.product_code = p))).map
    (fun r => r.order_date)).dedup).length

/-- The dense upsampled table before filtering: one row per `(day, product)`
pair of the full daily range crossed with the sorted product keys, in
day-major order (the row order of the two-level groupby), with the
forward-filled group means as values. -/
def denseRows (clean : List Txn) (dmin dmax : ℤ) : List AggRow :=
  (dateRange dmin dmax).flatMap (fun d =>
    (sortedProducts clean).map (fun p =>
      { order_date := d, product_code := p, daily_mean_price := ffillAt clean p d }))

/-- `aggregate_time_series` of `src/aggregation.py`: drop NaN prices, bin by
`(day, product)` with daily bins spanning the whole date range (the pandas
`Grouper` upsampling), take the group means, forward-fill within each
product, then keep only the products whose distinct-day count reaches
`min_days`.  Rows are ordered as the groupby emits them: by day first, then
product code. -/
def aggregate_time_series (txns : List Txn) (min_days : ℕ) : List AggRow :=
  let clean := cleanTxns txns
  match foldMin (clean.map (fun t => t.order_date)),
        foldMax (clean.map (fun t => t.order_date)) with
  | some dmin, some dmax =>
    let dense := denseRows clean dmin dmax
    dense.filter (fun r => decide (min_days ≤ dayCount dense r.product_code))
  | _, _ => []

/-- Sorted ascending by `(product_code, order_date)`: the order the claim
asserts for the aggregated table. -/
def prodDateLE (a b : AggRow) : Prop :=
  strLe a.product_code b.product_code ∧
    (b.product_code = a.product_code → a.order_date ≤ b.order_date)

/-- Sorted ascending by `(order_date, product_code)`: the order the code
actually produces. -/
def dateProdLE (a b : AggRow) : Prop :=
  a.order_date < b.order_date ∨
    (a.order_date = b.order_date ∧ strLe a.product_code b.product_code)

/-- The claim's notion of a volatility score lying inside `[0, 1]` (a NaN
float does not). -/
def inUnitInterval (v : PyVal) : Prop :=
  ∃ q : ℚ, v = PyVal.num q ∧ 0 ≤ q ∧ q ≤ 1

/-- A small concrete engineered feature table used for evaluations: one
product with a spike on days 2–4 and a drop on day 5. -/
def exDF : List Row :=
  [ { product_code := "P", order_date := 0, daily_mean_price := 50, volatility_cv := some (1 / 10) },
    { product_code := "P", order_date := 1, daily_mean_price := 50, volatility_cv := some (1 / 10) },
    { product_code := "P", order_date := 2, daily_mean_price := 80, rolling_z_score := some 2,
      volatility_cv := some (1 / 10) },
    { product_code := "P", order_date := 3, daily_mean_price := 80, volatility_cv := some (1 / 10) },
    { product_code := "P", order_date := 4, daily_mean_price := 80, volatility_cv := some (1 / 10) },
    { product_code := "P", order_date := 5, daily_mean_price := 40, volatility_cv := some (1 / 10) } ]

/-- A concrete feature table whose last pre-drop `volatility_cv` cell is NaN
while earlier cells are not. -/
def exC3 : List Row :=
  [ { product_code := "P", order_date := 0, daily_mean_price := 50, volatility_cv := some (1 / 10) },
    { product_code := "P", order_date := 1, daily_mean_price := 50, volatility_cv := some (1 / 10) },
    { product_code := "P", order_date := 2, daily_mean_price := 80, volatility_cv := some (1 / 10) },
    { product_code := "P", order_date := 3, daily_mean_price := 80, volatility_cv := some (1 / 10) },
    { product_code := "P", order_date := 4, daily_mean_price := 80, volatility_cv := none },
    { product_code := "P", order_date := 5, daily_mean_price := 40, volatility_cv := some (1 / 10) } ]

/-- Two cleaned transactions of two products on two days. -/
def exT8 : List Txn :=
  [ { product_code := "B", order_date := 0, price := some 1 },
    { product_code := "A", order_date := 1, price := some 2 } ]

theorem foldl_max_eq_or_mem {α : Type} [LinearOrder α] :
    ∀ (xs : List α) (x : α), xs.foldl max x = x ∨ xs.foldl max x ∈ xs := by
  intro xs
  induction xs with
  | nil => intro x; exact Or.inl rfl
  | cons a as ih =>
    intro x
    rcases ih (max x a) with h | h
    · rcases max_choice x a with hm | hm
      · exact Or.inl (by simpa [hm] using h)
      · exact Or.inr (by simp only [List.foldl_cons]; rw [h, hm]; exact List.mem_cons_self a as)
    · exact Or.inr (List.mem_cons_of_mem a h)

theorem le_foldl_max {α : Type} [LinearOrder α] :
    ∀ (xs : List α) (x : α), x ≤ xs.foldl max x := by
  intro xs
  induction xs with
  | nil => intro x; exact le_refl x
  | cons a as ih => intro x; exact le_trans (le_max_left x a) (ih (max x a))

theorem mem_le_foldl_max {α : Type} [LinearOrder α] :
    ∀ (xs : List α) (x a : α), a ∈ xs → a ≤ xs.foldl max x := by
  intro xs
  induction xs with
  | nil => intro x a h; cases h
  | cons b bs ih =>
    intro x a h
    rcases List.mem_cons.mp h with h | h
    · subst h; exact le_trans (le_max_right x a) (le_foldl_max bs (max x a))
    · exact ih (max x b) a h

theorem foldMax_mem {α : Type} [LinearOrder α] {l : List α} {m : α}
    (h : foldMax l = some m) : m ∈ l := by
  cases l with
  | nil => cases h
  | cons x xs =>
    have hm : xs.foldl max x = m := by simpa [foldMax] using h
    rcases foldl_max_eq_or_mem xs x with h' | h'
    · rw [← hm, h']; exact List.mem_cons_self x xs
    · rw [← hm]; exact List.mem_cons_of_mem x h'

theorem le_foldMax {α : Type} [LinearOrder α] {l : List α} {m a : α}
    (h : foldMax l = some m) (ha : a ∈ l) : a ≤ m := by
  cases l with
  | nil => cases ha
  | cons x xs =>
    have hm : xs.foldl max x = m := by simpa [foldMax] using h
    rcases List.mem_cons.mp ha with h' | h'
    · subst h'; rw [← hm]; exact le_foldl_max xs a
    · rw [← hm]; exact mem_le_foldl_max xs x a h'

theorem foldMax_isSome {α : Type} [LinearOrder α] {l : List α} (h : l ≠ []) :
    ∃ m, foldMax l = some m := by
  cases l with
  | nil => exact absurd rfl h
  | cons x xs => exact ⟨xs.foldl max x, rfl⟩

theorem foldMin_isSome {α : Type} [LinearOrder α] {l : List α} (h : l ≠ []) :
    ∃ m, foldMin l = some m := by
  cases l with
  | nil => exact absurd rfl h
  | cons x xs => exact ⟨xs.foldl min x, rfl⟩

theorem foldl_min_eq_or_mem {α : Type} [LinearOrder α] :
    ∀ (xs : List α) (x : α), xs.foldl min x = x ∨ xs.foldl min x ∈ xs := by
  intro xs
  induction xs with
  | nil => intro x; exact Or.inl rfl
  | cons a as ih =>
    intro x
    rcases ih (min x a) with h | h
    · rcases min_choice x a with hm | hm
      · exact Or.inl (by simpa [hm] using h)
      · exact Or.inr (by simp only [List.foldl_cons]; rw [h, hm]; exact List.mem_cons_self a as)
    · exact Or.inr (List.mem_cons_of_mem a h)

theorem foldl_min_le {α : Type} [LinearOrder α] :
    ∀ (xs : List α) (x : α), xs.foldl min x ≤ x := by
  intro xs
  induction xs with
  | nil => intro x; exact le_refl x
  | cons a as ih => intro x; exact le_trans (ih (min x a)) (min_le_left x a)

theorem foldl_min_le_mem {α : Type} [LinearOrder α] :
    ∀ (xs : List α) (x a : α), a ∈ xs → xs.foldl min x ≤ a := by
  intro xs
  induction xs with
  | nil => intro x a h; cases h
  | cons b bs ih =>
    intro x a h
    rcases List.mem_cons.mp h with h | h
    · subst h; exact le_trans (foldl_min_le bs (min x a)) (min_le_right x a)
    · exact ih (min x b) a h

theorem foldMin_mem {α : Type} [LinearOrder α] {l : List α} {m : α}
    (h : foldMin l = some m) : m ∈ l := by
  cases l with
  | nil => cases h
  | cons x xs =>
    have hm : xs.foldl min x = m := by simpa [foldMin] using h
    rcases foldl_min_eq_or_mem xs x with h' | h'
    · rw [← hm, h']; exact List.mem_cons_self x xs
    · rw [← hm]; exact List.mem_cons_of_mem x h'

theorem foldMin_le {α : Type} [LinearOrder α] {l : List α} {m a : α}
    (h : foldMin l = some m) (ha : a ∈ l) : m ≤ a := by
  cases l with
  | nil => cases ha
  | cons x xs =>
    have hm : xs.foldl min x = m := by simpa [foldMin] using h
    rcases List.mem_cons.mp ha with h' | h'
    · subst h'; rw [← hm]; exact foldl_min_le xs a
    · rw [← hm]; exact foldl_min_le_mem xs x a h'

theorem commonDecision_eval_date (pc : String) (e : ℤ) (cur cl : ℚ) (recent : List Row)
    (dt sz : ℚ) : (commonDecision pc e cur cl recent dt sz).evaluation_date = e := rfl

theorem commonDecision_drop (pc : String) (e : ℤ) (cur cl : ℚ) (recent : List Row)
    (dt sz : ℚ) :
    (commonDecision pc e cur cl recent dt sz).drop_percentage
      = some (pyRound (dropFormula cur cl) 3) := rfl

theorem commonDecision_vol (pc : String) (e : ℤ) (cur cl : ℚ) (recent : List Row)
    (dt sz : ℚ) :
    (commonDecision pc e cur cl recent dt sz).volatility_score
      = some (volScore recent.dropLast) := rfl

theorem commonDecision_status_cases (pc : String) (e : ℤ) (cur cl : ℚ) (recent : List Row)
    (dt sz : ℚ) :
    (commonDecision pc e cur cl recent dt sz).discount_status = "Genuine" ∨
    (commonDecision pc e cur cl recent dt sz).discount_status = "Suspicious" := by
  unfold commonDecision
  dsimp only
  split_ifs <;> simp

theorem commonDecision_suspicious_iff (pc : String) (e : ℤ) (cur cl : ℚ) (recent : List Row)
    (dt sz : ℚ) :
    (commonDecision pc e cur cl recent dt sz).discount_status = "Suspicious" ↔
      (dt ≤ dropFormula cur cl ∧ hasSpike recent.dropLast sz = true) := by
  unfold commonDecision
  dsimp only
  split_ifs with h1 h2 <;> simp_all [not_lt.mp]

theorem histAt_common {pdf : List Row} {pc : String} {a wd : ℤ} {e : ℤ} {cur cl : ℚ}
    {recent : List Row} (h : histAt pdf pc a wd = Resolved.common e cur cl recent) :
    e = a ∧ recent = sliceRows pdf (a - wd) a ∧ cur = lookupPrice pdf a ∧
      cl = maxPrice recent ∧ 5 ≤ recent.length := by
  unfold histAt at h
  dsimp only at h
  split at h
  · cases h
  · next hlen =>
    injection h with h1 h2 h3 h4
    subst h1; subst h4; subst h2; subst h3
    exact ⟨rfl, rfl, rfl, rfl, not_lt.mp hlen⟩

theorem histAt_done {pdf : List Row} {pc : String} {a wd : ℤ} {r : DetectionResult}
    (h : histAt pdf pc a wd = Resolved.done r) :
    r.discount_status = "Insufficient Data" ∧ r.evaluation_date = a := by
  unfold histAt at h
  dsimp only at h
  split at h
  · injection h with h1; subst h1; exact ⟨rfl, rfl⟩
  · cases h

theorem detect_of_done {df : List Row} {pc : String} {ed today : ℤ} {cur? cl? : Option ℚ}
    {wd : ℤ} (dt sz : ℚ) {r : DetectionResult}
    (h : resolveMode df pc ed today cur? cl? wd = Resolved.done r) :
    detect_fake_discount df pc ed today cur? cl? wd dt sz = Except.ok r := by
  unfold detect_fake_discount
  rw [h]

theorem detect_of_common {df : List Row} {pc : String} {ed today : ℤ} {cur? cl? : Option ℚ}
    {wd : ℤ} (dt sz : ℚ) {e : ℤ} {cur cl : ℚ} {recent : List Row}
    (h : resolveMode df pc ed today cur? cl? wd = Resolved.common e cur cl recent) :
    detect_fake_discount df pc ed today cur? cl? wd dt sz
      = Except.ok (commonDecision pc e cur cl recent dt sz) := by
  unfold detect_fake_discount
  rw [h]

theorem detect_of_crash {df : List Row} {pc : String} {ed today : ℤ} {cur? cl? : Option ℚ}
    {wd : ℤ} (dt sz : ℚ) {m : String}
    (h : resolveMode df pc ed today cur? cl? wd = Resolved.crash m) :
    detect_fake_discount df pc ed today cur? cl? wd dt sz = Except.error m := by
  unfold detect_fake_discount
  rw [h]

theorem detect_cases {df : List Row} {pc : String} {ed today : ℤ} {cur? cl? : Option ℚ}
    {wd : ℤ} {dt sz : ℚ} {r : DetectionResult}
    (h : detect_fake_discount df pc ed today cur? cl? wd dt sz = Except.ok r) :
    resolveMode df pc ed today cur? cl? wd = Resolved.done r ∨
    ∃ e cur cl recent, resolveMode df pc ed today cur? cl? wd = Resolved.common e cur cl recent ∧
      r = commonDecision pc e cur cl recent dt sz := by
  rcases hr : resolveMode df pc ed today cur? cl? wd with r0 | ⟨e, cur, cl, recent⟩ | m
  · have h2 := (detect_of_done dt sz hr).symm.trans h
    injection h2 with h3
    subst h3
    exact Or.inl rfl
  · have h2 := (detect_of_common dt sz hr).symm.trans h
    injection h2 with h3
    exact Or.inr ⟨e, cur, cl, recent, rfl, h3.symm⟩
  · have h2 := (detect_of_crash dt sz hr).symm.trans h
    cases h2

theorem resolveMode_done_status {df : List Row} {pc : String} {ed today : ℤ}
    {cur? cl? : Option ℚ} {wd : ℤ} {r : DetectionResult}
    (h : resolveMode df pc ed today cur? cl? wd = Resolved.done r) :
    r.discount_status = "No Data" ∨ r.discount_status = "Insufficient Data" ∨
    r.discount_status = "Invalid Input" ∨ r.discount_status = "No Discount" ∨
    r.discount_status = "Limited Data" := by
  unfold resolveMode at h
  dsimp only at h
  split at h
  · injection h with h1; subst h1; simp
  · split at h
    · split at h
      · rcases histAt_done h with ⟨hs, _⟩; simp [hs]
      · split at h
        · injection h with h1; subst h1; simp
        · rcases histAt_done h with ⟨hs, _⟩; simp [hs]
    · split at h
      · split at h
        · split at h
          · injection h with h1; subst h1; simp
          · split at h
            · injection h with h1; subst h1; simp
            · split at h
              · injection h with h1; subst h1; simp
              · cases h
        · injection h with h1; subst h1; simp
      · split at h
        · cases h
        · cases h
        · split at h <;> cases h

theorem histAt_ne_crash {pdf : List Row} {pc : String} {a wd : ℤ} {m : String} :
    histAt pdf pc a wd ≠ Resolved.crash m := by
  unfold histAt
  dsimp only
  split <;> simp

theorem mem_map_ne_nil {df : List Row} {pc : String} {ed : ℤ}
    (hmem : ed ∈ (productRows df pc).map (fun r => r.order_date)) :
    (productRows df pc).isEmpty = false := by
  rcases List.mem_map.mp hmem with ⟨r, hr, _⟩
  cases hpdf : productRows df pc with
  | nil => rw [hpdf] at hr; cases hr
  | cons a l => rfl

theorem resolveMode_hist_mem {df : List Row} {pc : String} {ed : ℤ} (today wd : ℤ)
    (hmem : ed ∈ (productRows df pc).map (fun r => r.order_date)) :
    resolveMode df pc ed today none none wd = histAt (productRows df pc) pc ed wd := by
  have hne := mem_map_ne_nil hmem
  unfold resolveMode
  simp [hne, hmem]

theorem resolveMode_hist_common {df : List Row} {pc : String} {ed today wd : ℤ}
    {e : ℤ} {cur cl : ℚ} {recent : List Row}
    (h : resolveMode df pc ed today none none wd = Resolved.common e cur cl recent) :
    recent = sliceRows (productRows df pc) (e - wd) e ∧
    cur = lookupPrice (productRows df pc) e ∧
    cl = maxPrice recent ∧ 5 ≤ recent.length ∧
    e ∈ (productRows df pc).map (fun r => r.order_date) := by
  unfold resolveMode at h
  dsimp only at h
  split at h
  · cases h
  · split at h
    · split at h
      · next hmem =>
        rcases histAt_common h with ⟨he, hr, hc, hm, hl⟩
        subst he
        exact ⟨hr, hc, hm, hl, hmem⟩
      · split at h
        · cases h
        · next hav =>
          rcases histAt_common h with ⟨he, hr, hc, hm, hl⟩
          subst he
          refine ⟨hr, hc, hm, hl, ?_⟩
          have hnil : ((productRows df pc).map (fun r => r.order_date)).filter
              (fun d => decide (d ≤ ed)) ≠ [] := by
            intro hx
            rw [← List.isEmpty_iff] at hx
            exact hav hx
          rcases foldMax_isSome hnil with ⟨m, hm'⟩
          have hmm : getMaxD (((productRows df pc).map (fun r => r.order_date)).filter
              (fun d => decide (d ≤ ed))) 0 = m := by
            unfold getMaxD
            rw [hm']
            rfl
          rw [hmm]
          exact (List.mem_filter.mp (foldMax_mem hm')).1
    · next hcond => exact absurd ⟨rfl, rfl⟩ hcond

theorem resolveMode_hist_done {df : List Row} {pc : String} {ed today wd : ℤ}
    {r : DetectionResult}
    (h : resolveMode df pc ed today none none wd = Resolved.done r) :
    r.discount_status = "No Data" ∨ r.discount_status = "Insufficient Data" := by
  unfold resolveMode at h
  dsimp only at h
  split at h
  · injection h with h1; subst h1; simp
  · split at h
    · split at h
      · exact Or.inr (histAt_done h).1
      · split at h
        · injection h with h1; subst h1; simp
        · exact Or.inr (histAt_done h).1
    · next hcond => exact absurd ⟨rfl, rfl⟩ hcond

theorem detect_hist_eval_date {df : List Row} {pc : String} {ed today wd : ℤ} (dt sz : ℚ)
    (hmem : ed ∈ (productRows df pc).map (fun r => r.order_date)) :
    ∃ res, detect_fake_discount df pc ed today none none wd dt sz = Except.ok res ∧
      res.evaluation_date = ed := by
  have hres := resolveMode_hist_mem today wd hmem
  rcases hh : histAt (productRows df pc) pc ed wd with r | ⟨e, cur, cl, recent⟩ | m
  · exact ⟨r, detect_of_done dt sz (hres.trans hh), (histAt_done hh).2⟩
  · have he := (histAt_common hh).1
    subst he
    exact ⟨commonDecision pc e cur cl recent dt sz,
      detect_of_common dt sz (hres.trans hh), commonDecision_eval_date pc e cur cl recent dt sz⟩
  · exact absurd hh histAt_ne_crash

theorem detect_hist_no_earlier {df : List Row} {pc : String} {ed today wd : ℤ} (dt sz : ℚ)
    (hne : productRows df pc ≠ [])
    (hall : ∀ r ∈ productRows df pc, ed < r.order_date) :
    ∃ res, detect_fake_discount df pc ed today none none wd dt sz = Except.ok res ∧
      res.discount_status = "No Data" := by
  have hie : (productRows df pc).isEmpty = false := by
    cases hpdf : productRows df pc with
    | nil => exact absurd hpdf hne
    | cons a l => rfl
  have hmem : ed ∉ (productRows df pc).map (fun r => r.order_date) := by
    intro hx
    rcases List.mem_map.mp hx with ⟨r, hr, hd⟩
    exact absurd (hd ▸ hall r hr) (lt_irrefl ed)
  have hav : (((productRows df pc).map (fun r => r.order_date)).filter
      (fun d => decide (d ≤ ed))).isEmpty = true := by
    rw [List.isEmpty_iff, List.filter_eq_nil_iff]
    intro d hd
    rcases List.mem_map.mp hd with ⟨r, hr, hdd⟩
    simp only [decide_eq_true_eq]
    intro hle
    exact absurd (lt_of_lt_of_le (hall r hr) (hdd ▸ hle)) (lt_irrefl ed)
  have hres : resolveMode df pc ed today none none wd = Resolved.done
      { product_code := pc, evaluation_date := ed, discount_status := "No Data",
        volatility_score := some (PyVal.num 0),
        explanation := "No price data available on or before this date." } := by
    unfold resolveMode
    simp [hie, hmem, hav]
  exact ⟨_, detect_of_done dt sz hres, rfl⟩

theorem resolveMode_realtime_invalid {df : List Row} {pc : String} {today : ℤ} (wd : ℤ)
    {cur? cl? : Option ℚ}
    (hie : (productRows df pc).isEmpty = false)
    (hnb : ¬(cur? = none ∧ cl? = none))
    (hbad : cur? = none ∨ cl? = none ∨ ∃ c, cur? = some c ∧ c ≤ 0) :
    ∃ res, resolveMode df pc today today cur? cl? wd = Resolved.done res ∧
      res.discount_status = "Invalid Input" := by
  unfold resolveMode
  rcases hc : cur? with _ | c <;> rcases hl : cl? with _ | l
  · exact absurd ⟨rfl, rfl⟩ (hc ▸ hl ▸ hnb)
  · simp [hie]
  · simp [hie]
  · have hc0 : c ≤ 0 := by
      rcases hbad with h | h | ⟨c', hc', hle⟩
      · rw [hc] at h; cases h
      · rw [hl] at h; cases h
      · rw [hc] at hc'
        injection hc' with hcc
        exact hcc ▸ hle
    simp [hie, hc0]

theorem resolveMode_realtime_nodiscount {df : List Row} {pc : String} {today : ℤ} (wd : ℤ)
    {c l : ℚ}
    (hie : (productRows df pc).isEmpty = false)
    (hc : 0 < c) (hl : l ≤ 0) :
    ∃ res, resolveMode df pc today today (some c) (some l) wd = Resolved.done res ∧
      res.discount_status = "No Discount" := by
  unfold resolveMode
  have hlc : l < c := lt_of_le_of_lt hl hc
  simp [hie, not_le.mpr hc, hlc]

/-- C1: in historical mode (no live prices), an evaluation date that has a
row for the product is returned unchanged as the result's evaluation date,
and an evaluation date strictly earlier than every date with data for the
product yields discount status `No Data`. -/
theorem claim_C1_anchoring (df : List Row) (pc : String) (ed today wd : ℤ) (dt sz : ℚ) :
    (ed ∈ (productRows df pc).map (fun r => r.order_date) →
      ∃ res, detect_fake_discount df pc ed today none none wd dt sz = Except.ok res ∧
        res.evaluation_date = ed) ∧
    ((productRows df pc ≠ [] ∧ ∀ r ∈ productRows df pc, ed < r.order_date) →
      ∃ res, detect_fake_discount df pc ed today none none wd dt sz = Except.ok res ∧
        res.discount_status = "No Data") :=
  ⟨fun hmem => detect_hist_eval_date dt sz hmem,
   fun h => detect_hist_no_earlier dt sz h.1 h.2⟩

theorem claim_C1_witness :
    (∃ res, detect_fake_discount exDF "P" 5 99 none none 60 (18 / 100) (12 / 10)
        = Except.ok res ∧ res.evaluation_date = 5) ∧
    (∃ res, detect_fake_discount exDF "P" (-1) 99 none none 60 (18 / 100) (12 / 10)
        = Except.ok res ∧ res.discount_status = "No Data") := by
  constructor
  · refine (claim_C1_anchoring exDF "P" 5 99 60 (18 / 100) (12 / 10)).1 ?_
    simp [productRows, exDF, List.insertionSort, List.orderedInsert]
  · refine (claim_C1_anchoring exDF "P" (-1) 99 60 (18 / 100) (12 / 10)).2 ⟨?_, ?_⟩
    · simp [productRows, exDF, List.insertionSort, List.orderedInsert]
    · intro r hr
      simp only [productRows, exDF, List.insertionSort, List.orderedInsert] at hr
      norm_num at hr
      rcases hr with h | h | h | h | h | h <;> rw [h] <;> norm_num

/-- C9: there is an input with product data, both live prices supplied, and
an evaluation date different from today, on which `detect_fake_discount`
neither returns a result nor a declared error: it falls through both mode
branches and dies on the unbound local `recent`. -/
theorem claim_C9_unbound_local :
    ∃ (df : List Row) (pc : String) (ed today : ℤ) (c l : ℚ) (wd : ℤ) (dt sz : ℚ),
      productRows df pc ≠ [] ∧ ed ≠ today ∧
      detect_fake_discount df pc ed today (some c) (some l) wd dt sz
        = Except.error "UnboundLocalError: recent" := by
  refine ⟨exDF, "P", 3, 99, 10, 20, 60, 18 / 100, 12 / 10, ?_, by norm_num, ?_⟩
  · simp [productRows, exDF, List.insertionSort, List.orderedInsert]
  · simp [detect_fake_discount, resolveMode, histAt, productRows, lookupPrice, sliceRows,
      maxPrice, dropFormula, hasSpike, volScore, commonDecision, getMaxD, foldMax, exDF,
      List.insertionSort, List.orderedInsert, List.filter]

/-- C5: with all other inputs fixed, if the detector answers `Suspicious` at
drop threshold `t`, it also answers `Suspicious` at every threshold
`t' ≤ t`. -/
theorem claim_C5_threshold_monotone (df : List Row) (pc : String) (ed today : ℤ)
    (cur? cl? : Option ℚ) (wd : ℤ) (sz t t' : ℚ) (hle : t' ≤ t) (r : DetectionResult)
    (hdet : detect_fake_discount df pc ed today cur? cl? wd t sz = Except.ok r)
    (hsusp : r.discount_status = "Suspicious") :
    ∃ r', detect_fake_discount df pc ed today cur? cl? wd t' sz = Except.ok r' ∧
      r'.discount_status = "Suspicious" := by
  rcases detect_cases hdet with hdone | ⟨e, cur, cl, recent, hcom, hr⟩
  · rcases resolveMode_done_status hdone with h | h | h | h | h <;>
      rw [hsusp] at h <;> exact absurd h (by decide)
  · subst hr
    have hs := (commonDecision_suspicious_iff pc e cur cl recent t sz).mp hsusp
    exact ⟨commonDecision pc e cur cl recent t' sz, detect_of_common t' sz hcom,
      (commonDecision_suspicious_iff pc e cur cl recent t' sz).mpr
        ⟨le_trans hle hs.1, hs.2⟩⟩

theorem claim_C5_witness :
    ∃ r', detect_fake_discount exDF "P" 5 99 none none 60 (1 / 10) (12 / 10)
      = Except.ok r' ∧ r'.discount_status = "Suspicious" := by
  have hmap : (detect_fake_discount exDF "P" 5 99 none none 60 (18 / 100) (12 / 10)).map
      (fun r => r.discount_status) = Except.ok "Suspicious" := by
    norm_num [detect_fake_discount, resolveMode, histAt, productRows, lookupPrice, sliceRows,
      maxPrice, dropFormula, hasSpike, volScore, commonDecision, getMaxD, foldMax, exDF,
      List.insertionSort, List.orderedInsert, List.filter, Except.map, min_def, max_def]
  rcases he : detect_fake_discount exDF "P" 5 99 none none 60 (18 / 100) (12 / 10) with m | r
  · rw [he] at hmap; cases hmap
  · rw [he] at hmap
    injection hmap with hmap
    exact claim_C5_threshold_monotone exDF "P" 5 99 none none 60 (12 / 10) (18 / 100) (1 / 10)
      (by norm_num) r he hmap


/-- C4: whenever the common decision path is reached — in either mode — the
returned drop percentage is computed by the single shared formula
`(claimed - current) / claimed` when `claimed > 0` and `0` otherwise. -/
theorem claim_C4_drop_formula (df : List Row) (pc : String) (ed today : ℤ)
    (cur? cl? : Option ℚ) (wd : ℤ) (dt sz : ℚ) (e : ℤ) (cur cl : ℚ) (recent : List Row)
    (h : resolveMode df pc ed today cur? cl? wd = Resolved.common e cur cl recent) :
    detect_fake_discount df pc ed today cur? cl? wd dt sz
      = Except.ok (commonDecision pc e cur cl recent dt sz) ∧
    (commonDecision pc e cur cl recent dt sz).drop_percentage
      = some (pyRound (dropFormula cur cl) 3) ∧
    dropFormula cur cl = (if 0 < cl then (cl - cur) / cl else 0) :=
  ⟨detect_of_common dt sz h, commonDecision_drop pc e cur cl recent dt sz, rfl⟩

theorem claim_C4_witness :
    detect_fake_discount exDF "P" 5 99 none none 60 (18 / 100) (12 / 10)
      = Except.ok (commonDecision "P" 5 40 80 exDF (18 / 100) (12 / 10)) ∧
    (commonDecision "P" 5 40 80 exDF (18 / 100) (12 / 10)).drop_percentage
      = some (pyRound (dropFormula 40 80) 3) ∧
    dropFormula 40 80 = (if 0 < (80 : ℚ) then ((80 : ℚ) - 40) / 80 else 0) := by
  have h : resolveMode exDF "P" 5 99 none none 60 = Resolved.common 5 40 80 exDF := by
    norm_num [resolveMode, histAt, productRows, lookupPrice, sliceRows, maxPrice,
      getMaxD, foldMax, exDF, List.insertionSort, List.orderedInsert, List.filter]
  exact claim_C4_drop_formula exDF "P" 5 99 none none 60 (18 / 100) (12 / 10) 5 40 80 exDF h


/-- C2 (counterexample): in real-time mode with `current_price = 5 > 0` and
`claimed_original_price = 0 ≤ 0`, the function returns `No Discount`, not the
`Invalid Input` the claim requires for a non-positive claimed price. -/
theorem claim_C2_counterexample :
    (0 : ℚ) < 5 ∧ (0 : ℚ) ≤ 0 ∧
    (detect_fake_discount exDF "P" 99 99 (some 5) (some 0) 60 (18 / 100) (12 / 10)).map
      (fun r => r.discount_status) = Except.ok "No Discount" ∧
    ("No Discount" : String) ≠ "Invalid Input" := by
  refine ⟨by norm_num, le_refl 0, ?_, by decide⟩
  simp [detect_fake_discount, resolveMode, histAt, productRows, lookupPrice, sliceRows,
    maxPrice, dropFormula, hasSpike, volScore, commonDecision, getMaxD, foldMax, exDF,
    List.insertionSort, List.orderedInsert, List.filter, Except.map]
  norm_num

/-- C2 (amended): in real-time mode the status is `Invalid Input` whenever
`current_price` is missing, `claimed_original_price` is missing, or
`current_price ≤ 0`; a non-positive `claimed_original_price` together with a
positive `current_price` instead yields `No Discount`, because the
non-positive claimed price is below the current price. -/
theorem claim_C2_invalid_input (df : List Row) (pc : String) (today wd : ℤ) (dt sz : ℚ)
    (cur? cl? : Option ℚ) (hie : (productRows df pc).isEmpty = false) :
    ((¬(cur? = none ∧ cl? = none)) →
      (cur? = none ∨ cl? = none ∨ (∃ c, cur? = some c ∧ c ≤ 0)) →
      ∃ res, detect_fake_discount df pc today today cur? cl? wd dt sz = Except.ok res ∧
        res.discount_status = "Invalid Input") ∧
    (∀ c l : ℚ, 0 < c → l ≤ 0 →
      ∃ res, detect_fake_discount df pc today today (some c) (some l) wd dt sz
          = Except.ok res ∧ res.discount_status = "No Discount") := by
  constructor
  · intro hnb hbad
    rcases resolveMode_realtime_invalid wd hie hnb hbad with ⟨res, hres, hst⟩
    exact ⟨res, detect_of_done dt sz hres, hst⟩
  · intro c l hc hl
    rcases resolveMode_realtime_nodiscount wd hie hc hl with ⟨res, hres, hst⟩
    exact ⟨res, detect_of_done dt sz hres, hst⟩

theorem claim_C2_witness :
    (∃ res, detect_fake_discount exDF "P" 99 99 (some (-3)) none 60 (18 / 100) (12 / 10)
        = Except.ok res ∧ res.discount_status = "Invalid Input") ∧
    (∃ res, detect_fake_discount exDF "P" 99 99 (some 5) (some 0) 60 (18 / 100) (12 / 10)
        = Except.ok res ∧ res.discount_status = "No Discount") := by
  have hie : (productRows exDF "P").isEmpty = false := by
    simp [productRows, exDF, List.insertionSort, List.orderedInsert]
  constructor
  · exact (claim_C2_invalid_input exDF "P" 99 60 (18 / 100) (12 / 10)
      (some (-3)) none hie).1 (by simp) (Or.inr (Or.inl rfl))
  · exact (claim_C2_invalid_input exDF "P" 99 60 (18 / 100) (12 / 10)
      (some 5) (some 0) hie).2 5 0 (by norm_num) (le_refl 0)


theorem volScore_last_some {pre : List Row} {r : Row} {v : ℚ}
    (hl : pre.getLast? = some r) (hv : r.volatility_cv = some v) :
    volScore pre = PyVal.num (min 1 (max 0 (v / (7 / 20)))) := by
  have hmem : r ∈ pre := by
    rcases List.getLast?_eq_some_iff.mp hl with ⟨ys, rfl⟩
    exact List.mem_append.mpr (Or.inr (List.mem_singleton.mpr rfl))
  have hany : pre.any (fun r => r.volatility_cv.isSome) = true :=
    List.any_eq_true.mpr ⟨r, hmem, by rw [hv]; rfl⟩
  unfold volScore
  rw [if_pos hany, hl]
  dsimp only
  rw [hv]

theorem volScore_all_none {pre : List Row} (h : ∀ r ∈ pre, r.volatility_cv = none) :
    volScore pre = PyVal.num 0 := by
  unfold volScore
  rw [if_neg]
  intro hx
  rcases List.any_eq_true.mp hx with ⟨r, hr, hs⟩
  rw [h r hr] at hs
  cases hs

theorem volScore_last_nan {pre : List Row} {r : Row}
    (hl : pre.getLast? = some r) (hv : r.volatility_cv = none)
    (hex : ∃ r' ∈ pre, (r'.volatility_cv).isSome = true) :
    volScore pre = PyVal.nan := by
  have hany := List.any_eq_true.mpr hex
  unfold volScore
  rw [if_pos hany, hl]
  dsimp only
  rw [hv]

theorem clip_unit (x : ℚ) : 0 ≤ min 1 (max 0 x) ∧ min 1 (max 0 x) ≤ 1 :=
  ⟨le_min zero_le_one (le_max_left 0 x), min_le_left 1 (max 0 x)⟩

/-- C3 (amended): on the common decision path the returned volatility score
is the clamp `np.clip(v / 0.35, 0, 1)` of the LAST pre-drop `volatility_cv`
cell `v` when that cell is non-NaN (then it lies in `[0,1]`), `0` when no
pre-drop cell is non-NaN, but NaN — outside `[0,1]` — when the last cell is
NaN while an earlier one is not. -/
theorem claim_C3_volatility (df : List Row) (pc : String) (ed today : ℤ)
    (cur? cl? : Option ℚ) (wd : ℤ) (dt sz : ℚ) (e : ℤ) (cur cl : ℚ) (recent : List Row)
    (hcom : resolveMode df pc ed today cur? cl? wd = Resolved.common e cur cl recent)
    (res : DetectionResult)
    (hres : detect_fake_discount df pc ed today cur? cl? wd dt sz = Except.ok res) :
    res.volatility_score = some (volScore recent.dropLast) ∧
    (∀ r v, recent.dropLast.getLast? = some r → r.volatility_cv = some v →
      volScore recent.dropLast = PyVal.num (min 1 (max 0 (v / (7 / 20)))) ∧
      inUnitInterval (volScore recent.dropLast)) ∧
    ((∀ r ∈ recent.dropLast, r.volatility_cv = none) →
      volScore recent.dropLast = PyVal.num 0 ∧ inUnitInterval (volScore recent.dropLast)) ∧
    (∀ r, recent.dropLast.getLast? = some r → r.volatility_cv = none →
      (∃ r' ∈ recent.dropLast, (r'.volatility_cv).isSome = true) →
      volScore recent.dropLast = PyVal.nan) := by
  have hr : res = commonDecision pc e cur cl recent dt sz := by
    have h2 := (detect_of_common dt sz hcom).symm.trans hres
    injection h2 with h3
    exact h3.symm
  refine ⟨by rw [hr]; exact commonDecision_vol pc e cur cl recent dt sz, ?_, ?_, ?_⟩
  · intro r v hl hv
    refine ⟨volScore_last_some hl hv, ?_⟩
    rw [volScore_last_some hl hv]
    exact ⟨min 1 (max 0 (v / (7 / 20))), rfl, clip_unit (v / (7 / 20))⟩
  · intro hnone
    refine ⟨volScore_all_none hnone, ?_⟩
    rw [volScore_all_none hnone]
    exact ⟨0, rfl, le_refl 0, by norm_num⟩
  · intro r hl hv hex
    exact volScore_last_nan hl hv hex

/-- C3 (counterexample): a feature table whose last pre-drop `volatility_cv`
is NaN while an earlier one is defined makes the returned volatility score
NaN, which does not lie in `[0, 1]`. -/
theorem claim_C3_counterexample :
    (detect_fake_discount exC3 "P" 5 99 none none 60 (18 / 100) (12 / 10)).map
      (fun r => r.volatility_score) = Except.ok (some PyVal.nan) ∧
    ¬ inUnitInterval PyVal.nan := by
  constructor
  · norm_num [detect_fake_discount, resolveMode, histAt, productRows, lookupPrice, sliceRows,
      maxPrice, dropFormula, hasSpike, volScore, commonDecision, getMaxD, foldMax, exC3,
      List.insertionSort, List.orderedInsert, List.filter, Except.map]
  · rintro ⟨q, hq, _⟩
    cases hq


theorem mem_productRows {df : List Row} {pc : String} {r : Row} :
    r ∈ productRows df pc ↔ r ∈ df ∧ r.product_code = pc := by
  unfold productRows
  rw [(List.perm_insertionSort _ _).mem_iff]
  simp [List.mem_filter]

theorem lookupPrice_exists : ∀ (pdf : List Row) (e : ℤ), (∃ r ∈ pdf, r.order_date = e) →
    ∃ r0, r0 ∈ pdf ∧ r0.order_date = e ∧ lookupPrice pdf e = r0.daily_mean_price := by
  intro pdf
  induction pdf with
  | nil =>
    intro e hex
    rcases hex with ⟨r, hr, _⟩
    cases hr
  | cons a rs ih =>
    intro e hex
    by_cases ha : a.order_date = e
    · exact ⟨a, List.mem_cons_self a rs, ha, by unfold lookupPrice; rw [if_pos ha]⟩
    · rcases hex with ⟨r, hr, hre⟩
      rcases List.mem_cons.mp hr with h | h
      · subst h; exact absurd hre ha
      · rcases ih e ⟨r, h, hre⟩ with ⟨r0, h0, he0, hl0⟩
        exact ⟨r0, List.mem_cons_of_mem a h0, he0,
          by unfold lookupPrice; rw [if_neg ha]; exact hl0⟩

theorem mem_sliceRows {pdf : List Row} {a b : ℤ} {r : Row} :
    r ∈ sliceRows pdf a b ↔ r ∈ pdf ∧ a ≤ r.order_date ∧ r.order_date ≤ b := by
  unfold sliceRows
  simp [List.mem_filter]

theorem le_maxPrice {recent : List Row} {r : Row} (h : r ∈ recent) :
    r.daily_mean_price ≤ maxPrice recent := by
  have hm : r.daily_mean_price ∈ recent.map (fun r => r.daily_mean_price) :=
    List.mem_map_of_mem _ h
  have hne : recent.map (fun r => r.daily_mean_price) ≠ [] := by
    intro hx
    rw [hx] at hm
    cases hm
  rcases foldMax_isSome hne with ⟨m, hmax⟩
  unfold maxPrice getMaxD
  rw [hmax]
  exact le_foldMax hmax hm

/-- C10: with positive prices, the historical mode never returns
`No Discount`, and on its common decision path the claimed price is the
window maximum, at least the current price, so the drop percentage lies in
`[0, 1)`. -/
theorem claim_C10_historical (df : List Row) (pc : String) (ed today wd : ℤ) (dt sz : ℚ)
    (hpos : ∀ r ∈ df, 0 < r.daily_mean_price) :
    (∀ res, detect_fake_discount df pc ed today none none wd dt sz = Except.ok res →
      res.discount_status ≠ "No Discount") ∧
    (∀ e cur cl recent,
      resolveMode df pc ed today none none wd = Resolved.common e cur cl recent →
      cl = maxPrice recent ∧ cur ≤ cl ∧
      0 ≤ dropFormula cur cl ∧ dropFormula cur cl < 1) := by
  constructor
  · intro res hres hst
    rcases detect_cases hres with hdone | ⟨e, cur, cl, recent, hcom, hr⟩
    · rcases resolveMode_hist_done hdone with h | h <;> rw [hst] at h <;>
        exact absurd h (by decide)
    · subst hr
      rcases commonDecision_status_cases pc e cur cl recent dt sz with h | h <;>
        rw [hst] at h <;> exact absurd h (by decide)
  · intro e cur cl recent hcom
    rcases resolveMode_hist_common hcom with ⟨hrec, hcur, hcl, hlen, hmem⟩
    rcases List.mem_map.mp hmem with ⟨r1, hr1, hd1⟩
    rcases lookupPrice_exists (productRows df pc) e ⟨r1, hr1, hd1⟩ with ⟨r0, h0, he0, hl0⟩
    have hrne : recent ≠ [] := by
      intro hx
      rw [hx] at hlen
      simp at hlen
    rcases List.exists_mem_of_ne_nil recent hrne with ⟨rr, hrr⟩
    have hrr' := mem_sliceRows.mp (by rw [← hrec]; exact hrr)
    have hwd : e - wd ≤ e := le_trans hrr'.2.1 hrr'.2.2
    have hr0rec : r0 ∈ recent := by
      rw [hrec]
      exact mem_sliceRows.mpr ⟨h0, by rw [he0]; exact hwd, le_of_eq he0⟩
    have hcurle : cur ≤ cl := by
      rw [hcur, hl0, hcl]
      exact le_maxPrice hr0rec
    have hcurpos : 0 < cur := by
      rw [hcur, hl0]
      exact hpos r0 (mem_productRows.mp h0).1
    have hclpos : 0 < cl := lt_of_lt_of_le hcurpos hcurle
    refine ⟨hcl, hcurle, ?_, ?_⟩
    · unfold dropFormula
      rw [if_pos hclpos]
      exact div_nonneg (sub_nonneg.mpr hcurle) (le_of_lt hclpos)
    · unfold dropFormula
      rw [if_pos hclpos, div_lt_one hclpos]
      exact sub_lt_self cl hcurpos

theorem claim_C10_witness : 0 ≤ dropFormula 40 80 ∧ dropFormula 40 80 < 1 := by
  have hpos : ∀ r ∈ exDF, 0 < r.daily_mean_price := by
    intro r hr
    fin_cases hr <;> norm_num
  have hcom : resolveMode exDF "P" 5 99 none none 60 = Resolved.common 5 40 80 exDF := by
    norm_num [resolveMode, histAt, productRows, lookupPrice, sliceRows, maxPrice,
      getMaxD, foldMax, exDF, List.insertionSort, List.orderedInsert, List.filter]
  exact ((claim_C10_historical exDF "P" 5 99 60 (18 / 100) (12 / 10) hpos).2
    5 40 80 exDF hcom).2.2


theorem detect_ok_not_HS {df : List Row} {pc : String} {ed today : ℤ}
    {cur? cl? : Option ℚ} {wd : ℤ} {dt sz : ℚ} {rule : DetectionResult}
    (hdet : detect_fake_discount df pc ed today cur? cl? wd dt sz = Except.ok rule) :
    rule.discount_status ≠ "Highly Suspicious" := by
  rcases detect_cases hdet with hdone | ⟨e, cur, cl, recent, hcom, hr⟩
  · rcases resolveMode_done_status hdone with h | h | h | h | h <;> rw [h] <;> decide
  · subst hr
    rcases commonDecision_status_cases pc e cur cl recent dt sz with h | h <;>
      rw [h] <;> decide

/-- C6: the hybrid detector returns `Highly Suspicious` exactly when the rule
status is `Suspicious` with ml score above 0.5 or `Genuine` with ml score
above 0.75; otherwise the rule status passes through unchanged; a product
absent from the score table scores 0; and the rule explanation is a prefix
of the final explanation. -/
theorem claim_C6_hybrid_escalation (df : List Row) (sd : List (String × ℚ)) (pc : String)
    (ed today : ℤ) (cur? cl? : Option ℚ) (wd : ℤ) (dt sz : ℚ) (rule : DetectionResult)
    (hdet : detect_fake_discount df pc ed today cur? cl? wd dt sz = Except.ok rule) :
    ∃ res, hybrid_detect_fake_discount df sd pc ed today cur? cl? wd dt sz = Except.ok res ∧
      (res.discount_status = "Highly Suspicious" ↔
        ((rule.discount_status = "Suspicious" ∧ 1 / 2 < mlScore sd pc) ∨
         (rule.discount_status = "Genuine" ∧ 3 / 4 < mlScore sd pc))) ∧
      (¬((rule.discount_status = "Suspicious" ∧ 1 / 2 < mlScore sd pc) ∨
         (rule.discount_status = "Genuine" ∧ 3 / 4 < mlScore sd pc)) →
        res.discount_status = rule.discount_status) ∧
      (List.lookup pc sd = none → mlScore sd pc = 0) ∧
      (∃ s, res.explanation = rule.explanation ++ s) := by
  have hnHS := detect_ok_not_HS hdet
  refine ⟨{ rule with
      ml_anomaly_score := some (pyRound (mlScore sd pc) 3)
      discount_status :=
        if rule.discount_status = "Suspicious" ∧ mlScore sd pc > 1 / 2 then "Highly Suspicious"
        else if rule.discount_status = "Genuine" ∧ mlScore sd pc > 3 / 4 then "Highly Suspicious"
        else rule.discount_status
      explanation := rule.explanation ++ (" ML anomaly score: " ++
        toString (pyRound (mlScore sd pc) 3) ++ " (higher = more abnormal).") },
    ?_, ?_, ?_, ?_, ?_⟩
  · unfold hybrid_detect_fake_discount
    rw [hdet]
  · dsimp only
    split_ifs with h1 h2
    · simp only [true_iff]
      exact Or.inl h1
    · simp only [true_iff]
      exact Or.inr h2
    · constructor
      · intro h
        exact absurd h hnHS
      · intro h
        rcases h with h | h
        · exact absurd h h1
        · exact absurd h h2
  · dsimp only
    intro hno
    rw [if_neg (fun h => hno (Or.inl h)), if_neg (fun h => hno (Or.inr h))]
  · intro hnone
    unfold mlScore
    rw [hnone]
    rfl
  · exact ⟨" ML anomaly score: " ++ toString (pyRound (mlScore sd pc) 3) ++
      " (higher = more abnormal).", rfl⟩

theorem claim_C6_witness :
    ∃ res, hybrid_detect_fake_discount [] [] "P" 0 0 none none 60 (18 / 100) (12 / 10)
        = Except.ok res ∧
      (res.discount_status = "Highly Suspicious" ↔
        ((("No Data" : String) = "Suspicious" ∧ 1 / 2 < mlScore [] "P") ∨
         (("No Data" : String) = "Genuine" ∧ 3 / 4 < mlScore [] "P"))) ∧
      (¬((("No Data" : String) = "Suspicious" ∧ 1 / 2 < mlScore [] "P") ∨
         (("No Data" : String) = "Genuine" ∧ 3 / 4 < mlScore [] "P")) →
        res.discount_status = "No Data") ∧
      (List.lookup "P" ([] : List (String × ℚ)) = none → mlScore [] "P" = 0) ∧
      (∃ s, res.explanation = "No price data available for this product." ++ s) := by
  have hdet : detect_fake_discount [] "P" 0 0 none none 60 (18 / 100) (12 / 10)
      = Except.ok
        { product_code := "P", evaluation_date := 0, discount_status := "No Data",
          volatility_score := some (PyVal.num 0),
          explanation := "No price data available for this product." } := by
    simp [detect_fake_discount, resolveMode, productRows, List.insertionSort]
  exact claim_C6_hybrid_escalation [] [] "P" 0 0 none none 60 (18 / 100) (12 / 10) _ hdet


theorem normalize_scores_bounds {raw : List ℚ} (hne : raw ≠ []) :
    ∀ s ∈ normalize_scores raw, 0 ≤ s ∧ s ≤ 1 := by
  intro s hs
  unfold normalize_scores at hs
  dsimp only at hs
  have hscne : invert_scores raw ≠ [] := by
    unfold invert_scores
    intro hx
    exact hne (List.map_eq_nil_iff.mp hx)
  rcases foldMax_isSome hscne with ⟨mx, hmx⟩
  rcases foldMin_isSome hscne with ⟨mn, hmn⟩
  rw [hmx, hmn] at hs
  dsimp only [Option.getD] at hs
  split_ifs at hs with heq
  · rcases List.mem_map.mp hs with ⟨x, _, hx⟩
    rw [← hx]
    norm_num
  · rcases List.mem_map.mp hs with ⟨x, hxmem, hx⟩
    have hxle : x ≤ mx := le_foldMax hmx hxmem
    have hlex : mn ≤ x := foldMin_le hmn hxmem
    have hlt : mn < mx := lt_of_le_of_ne (le_trans hlex hxle) (fun h => heq h.symm)
    have hpos : 0 < mx - mn := sub_pos.mpr hlt
    constructor
    · rw [← hx]
      exact div_nonneg (sub_nonneg.mpr hlex) (le_of_lt hpos)
    · rw [← hx, div_le_one hpos]
      exact sub_le_sub_right hxle mn

theorem normalize_scores_const {raw : List ℚ} (hne : raw ≠ [])
    (hconst : ∀ a ∈ raw, ∀ b ∈ raw, a = b) :
    ∀ s ∈ normalize_scores raw, s = 0 := by
  intro s hs
  unfold normalize_scores at hs
  dsimp only at hs
  have hscne : invert_scores raw ≠ [] := by
    unfold invert_scores
    intro hx
    exact hne (List.map_eq_nil_iff.mp hx)
  rcases foldMax_isSome hscne with ⟨mx, hmx⟩
  rcases foldMin_isSome hscne with ⟨mn, hmn⟩
  have hconst' : ∀ a ∈ invert_scores raw, ∀ b ∈ invert_scores raw, a = b := by
    intro a ha b hb
    rcases List.mem_map.mp ha with ⟨a', ha', rfl⟩
    rcases List.mem_map.mp hb with ⟨b', hb', rfl⟩
    rw [hconst a' ha' b' hb']
  have heq : mx = mn := hconst' mx (foldMax_mem hmx) mn (foldMin_mem hmn)
  rw [hmx, hmn] at hs
  dsimp only [Option.getD] at hs
  rw [if_pos heq] at hs
  rcases List.mem_map.mp hs with ⟨x, _, hx⟩
  exact hx.symm

/-- C7: every normalized anomaly score in the table produced by
`train_isolation_forest` lies in `[0, 1]`, and equals 0 for every product
when all raw model scores are identical. -/
theorem claim_C7_normalization (product_codes : List String) (raw : List ℚ)
    (hne : raw ≠ []) :
    (∀ pr ∈ anomaly_score_table product_codes raw, 0 ≤ pr.2 ∧ pr.2 ≤ 1) ∧
    ((∀ a ∈ raw, ∀ b ∈ raw, a = b) →
      ∀ pr ∈ anomaly_score_table product_codes raw, pr.2 = 0) := by
  constructor
  · intro pr hpr
    exact normalize_scores_bounds hne pr.2 (List.of_mem_zip hpr).2
  · intro hconst pr hpr
    exact normalize_scores_const hne hconst pr.2 (List.of_mem_zip hpr).2

theorem claim_C7_witness :
    0 ≤ (("A", (0 : ℚ)) : String × ℚ).2 ∧ (("A", (0 : ℚ)) : String × ℚ).2 ≤ 1 := by
  refine (claim_C7_normalization ["A"] [3] (by simp)).1 ("A", 0) ?_
  simp [anomaly_score_table, normalize_scores, invert_scores, foldMax, foldMin]


theorem lexLeChars_total : ∀ as bs : List Char,
    lexLeChars as bs = true ∨ lexLeChars bs as = true := by
  intro as
  induction as with
  | nil => intro bs; exact Or.inl rfl
  | cons a as ih =>
    intro bs
    cases bs with
    | nil => exact Or.inr rfl
    | cons b bs =>
      unfold lexLeChars
      rcases lt_trichotomy a.toNat b.toNat with h | h | h
      · left
        rw [if_pos h]
      · rw [if_neg (by omega), if_neg (by omega), if_neg (by omega), if_neg (by omega)]
        exact ih bs
      · right
        rw [if_pos h]

theorem lexLeChars_trans : ∀ as bs cs : List Char,
    lexLeChars as bs = true → lexLeChars bs cs = true → lexLeChars as cs = true := by
  intro as
  induction as with
  | nil => intro bs cs _ _; rfl
  | cons a as ih =>
    intro bs cs hab hbc
    cases bs with
    | nil => cases hab
    | cons b bs =>
      cases cs with
      | nil => cases hbc
      | cons c cs =>
        unfold lexLeChars at hab hbc ⊢
        rcases lt_trichotomy a.toNat b.toNat with h1 | h1 | h1 <;>
          rcases lt_trichotomy b.toNat c.toNat with h2 | h2 | h2
        · rw [if_pos (by omega)]
        · rw [if_pos (by omega)]
        · rw [if_neg (by omega), if_pos (by omega)] at hbc
          cases hbc
        · rw [if_pos (by omega)]
        · rw [if_neg (by omega), if_neg (by omega)] at hab hbc ⊢
          exact ih bs cs hab hbc
        · rw [if_neg (by omega), if_pos (by omega)] at hbc
          cases hbc
        · rw [if_neg (by omega), if_pos (by omega)] at hab
          cases hab
        · rw [if_neg (by omega), if_pos (by omega)] at hab
          cases hab
        · rw [if_neg (by omega), if_pos (by omega)] at hab
          cases hab

instance : IsTotal String strLe :=
  ⟨fun a b => lexLeChars_total a.data b.data⟩

instance : IsTrans String strLe :=
  ⟨fun a b c => lexLeChars_trans a.data b.data c.data⟩


theorem pairwise_flatMap {α β : Type} {R : β → β → Prop} {L : List α} {f : α → List β}
    (hinner : ∀ a ∈ L, (f a).Pairwise R)
    (hcross : L.Pairwise (fun a b => ∀ x ∈ f a, ∀ y ∈ f b, R x y)) :
    (L.flatMap f).Pairwise R := by
  induction L with
  | nil => exact List.Pairwise.nil
  | cons a L ih =>
    rw [List.flatMap_cons, List.pairwise_append]
    refine ⟨hinner a (List.mem_cons_self a L),
      ih (fun b hb => hinner b (List.mem_cons_of_mem a hb)) (List.Pairwise.of_cons hcross), ?_⟩
    intro x hx y hy
    rcases List.mem_flatMap.mp hy with ⟨b, hb, hyb⟩
    exact (List.pairwise_cons.mp hcross).1 b hb x hx y hyb

theorem mem_dateRange {lo hi d : ℤ} : d ∈ dateRange lo hi ↔ lo ≤ d ∧ d ≤ hi := by
  unfold dateRange
  constructor
  · intro h
    rcases List.mem_map.mp h with ⟨i, hi', rfl⟩
    rw [List.mem_range] at hi'
    omega
  · intro h
    refine List.mem_map.mpr ⟨(d - lo).toNat, ?_, ?_⟩
    · rw [List.mem_range]
      omega
    · omega

theorem dateRange_pairwise (lo hi : ℤ) : (dateRange lo hi).Pairwise (fun a b => a < b) := by
  unfold dateRange
  exact List.Pairwise.map _ (fun a b h => by omega)
    (List.pairwise_lt_range ((hi + 1 - lo).toNat))

theorem sortedProducts_pairwise (clean : List Txn) :
    (sortedProducts clean).Pairwise strLe := by
  unfold sortedProducts
  exact List.sorted_insertionSort strLe ((clean.map (fun t => t.product_code)).dedup)

theorem mem_sortedProducts {clean : List Txn} {p : String} :
    p ∈ sortedProducts clean ↔ ∃ t ∈ clean, t.product_code = p := by
  unfold sortedProducts
  rw [(List.perm_insertionSort _ _).mem_iff, List.mem_dedup, List.mem_map]

theorem mem_denseRows {clean : List Txn} {dmin dmax : ℤ} {r : AggRow} :
    r ∈ denseRows clean dmin dmax ↔
      (dmin ≤ r.order_date ∧ r.order_date ≤ dmax) ∧
      r.product_code ∈ sortedProducts clean ∧
      r = { order_date := r.order_date, product_code := r.product_code,
            daily_mean_price := ffillAt clean r.product_code r.order_date } := by
  unfold denseRows
  rw [List.mem_flatMap]
  constructor
  · rintro ⟨d, hd, hr⟩
    rcases List.mem_map.mp hr with ⟨p, hp, rfl⟩
    exact ⟨mem_dateRange.mp hd, hp, rfl⟩
  · rintro ⟨hd, hp, hr⟩
    exact ⟨r.order_date, mem_dateRange.mpr hd,
      List.mem_map.mpr ⟨r.product_code, hp, hr.symm⟩⟩

theorem denseRows_pairwise (clean : List Txn) (dmin dmax : ℤ) :
    (denseRows clean dmin dmax).Pairwise dateProdLE := by
  unfold denseRows
  apply pairwise_flatMap
  · intro d _
    exact List.Pairwise.map _ (fun a b h => Or.inr ⟨rfl, h⟩) (sortedProducts_pairwise clean)
  · apply List.Pairwise.imp ?_ (dateRange_pairwise dmin dmax)
    intro d1 d2 h x hx y hy
    rcases List.mem_map.mp hx with ⟨p1, _, rfl⟩
    rcases List.mem_map.mp hy with ⟨p2, _, rfl⟩
    exact Or.inl h


theorem aggregate_eq {txns : List Txn} (min_days : ℕ) {dmin dmax : ℤ}
    (hmin : foldMin ((cleanTxns txns).map (fun t => t.order_date)) = some dmin)
    (hmax : foldMax ((cleanTxns txns).map (fun t => t.order_date)) = some dmax) :
    aggregate_time_series txns min_days
      = (denseRows (cleanTxns txns) dmin dmax).filter
          (fun r => decide (min_days ≤ dayCount (denseRows (cleanTxns txns) dmin dmax)
            r.product_code)) := by
  unfold aggregate_time_series
  dsimp only
  rw [hmin, hmax]

theorem aggregate_pairwise (txns : List Txn) (min_days : ℕ) :
    (aggregate_time_series txns min_days).Pairwise dateProdLE := by
  unfold aggregate_time_series
  dsimp only
  split
  · exact List.Pairwise.sublist (List.filter_sublist _)
      (denseRows_pairwise (cleanTxns txns) _ _)
  · exact List.Pairwise.nil


theorem ffillAt_isSome {clean : List Txn} {p : String} {d : ℤ}
    (hcl : ∀ t ∈ clean, t.price.isSome = true)
    (h1 : ∃ t ∈ clean, t.product_code = p ∧ t.order_date ≤ d) :
    ∃ q, ffillAt clean p d = some q := by
  rcases h1 with ⟨t1, ht1, hp1, hd1⟩
  have ht1f : t1 ∈ clean.filter
      (fun t => decide (t.product_code = p) && decide (t.order_date ≤ d)) :=
    List.mem_filter.mpr ⟨ht1, by simp [hp1, hd1]⟩
  have hfne : (clean.filter
      (fun t => decide (t.product_code = p) && decide (t.order_date ≤ d))).map
        (fun t => t.order_date) ≠ [] :=
    List.ne_nil_of_mem (List.mem_map_of_mem _ ht1f)
  rcases foldMax_isSome hfne with ⟨d', hd'⟩
  rcases List.mem_map.mp (foldMax_mem hd') with ⟨t', ht'f, ht'd⟩
  have ht'c := List.mem_filter.mp ht'f
  have ht'p : t'.product_code = p := by
    have := ht'c.2
    rw [Bool.and_eq_true, decide_eq_true_eq, decide_eq_true_eq] at this
    exact this.1
  rcases Option.isSome_iff_exists.mp (hcl t' ht'c.1) with ⟨v, hv⟩
  have hne2 : txnPricesAt clean p d' ≠ [] := by
    unfold txnPricesAt
    have ht'in : t' ∈ clean.filter
        (fun t => decide (t.product_code = p) && decide (t.order_date = d')) :=
      List.mem_filter.mpr ⟨ht'c.1, by simp [ht'p, ht'd]⟩
    exact List.ne_nil_of_mem (List.mem_filterMap.mpr ⟨t', ht'in, hv⟩)
  unfold ffillAt lastTxnDate
  rw [hd']
  unfold meanAt
  dsimp only
  rw [if_neg (by
    intro hx
    rw [List.isEmpty_iff] at hx
    exact hne2 hx)]
  exact ⟨_, rfl⟩

theorem cleanTxns_isSome {txns : List Txn} : ∀ t ∈ cleanTxns txns, t.price.isSome = true := by
  intro t ht
  exact (List.mem_filter.mp ht).2

theorem aggregate_dense {txns : List Txn} {m : ℕ} {p : String} {d : ℤ}
    (hp : p ∈ (aggregate_time_series txns m).map (fun r => r.product_code))
    (h1 : ∃ t ∈ cleanTxns txns, t.product_code = p ∧ t.order_date ≤ d)
    (h2 : ∃ t ∈ cleanTxns txns, t.product_code = p ∧ d ≤ t.order_date) :
    ∃ q, ({ order_date := d, product_code := p, daily_mean_price := some q } : AggRow)
      ∈ aggregate_time_series txns m := by
  rcases h1 with ⟨t1, ht1, hp1, hd1⟩
  rcases h2 with ⟨t2, ht2, hp2, hd2⟩
  have hmapne : (cleanTxns txns).map (fun t => t.order_date) ≠ [] :=
    List.ne_nil_of_mem (List.mem_map_of_mem _ ht1)
  rcases foldMin_isSome hmapne with ⟨dmin, hmin⟩
  rcases foldMax_isSome hmapne with ⟨dmax, hmax⟩
  have hagg := aggregate_eq m hmin hmax
  rw [hagg] at hp ⊢
  have hdmin : dmin ≤ d := le_trans (foldMin_le hmin (List.mem_map_of_mem _ ht1)) hd1
  have hdmax : d ≤ dmax := le_trans hd2 (le_foldMax hmax (List.mem_map_of_mem _ ht2))
  have hpprod : p ∈ sortedProducts (cleanTxns txns) :=
    mem_sortedProducts.mpr ⟨t1, ht1, hp1⟩
  rcases ffillAt_isSome cleanTxns_isSome ⟨t1, ht1, hp1, hd1⟩ with ⟨q, hq⟩
  refine ⟨q, List.mem_filter.mpr ⟨?_, ?_⟩⟩
  · apply mem_denseRows.mpr
    refine ⟨⟨hdmin, hdmax⟩, hpprod, ?_⟩
    dsimp only
    rw [hq]
  · rcases List.mem_map.mp hp with ⟨r0, hr0, hr0p⟩
    have hpred := (List.mem_filter.mp hr0).2
    rw [hr0p] at hpred
    exact hpred


/-- C8 (amended): every product retained by the aggregator has a row with a
defined price for every calendar day between its first and last transaction
days, and the output is sorted ascending by `(order_date, product_code)`
(day-major — not by `(product_code, order_date)`). -/
theorem claim_C8_density_and_order (txns : List Txn) (m : ℕ) (p : String) (d : ℤ) :
    (p ∈ (aggregate_time_series txns m).map (fun r => r.product_code) →
     (∃ t ∈ cleanTxns txns, t.product_code = p ∧ t.order_date ≤ d) →
     (∃ t ∈ cleanTxns txns, t.product_code = p ∧ d ≤ t.order_date) →
     ∃ q, ({ order_date := d, product_code := p, daily_mean_price := some q } : AggRow)
       ∈ aggregate_time_series txns m) ∧
    (aggregate_time_series txns m).Pairwise dateProdLE :=
  ⟨fun hp h1 h2 => aggregate_dense hp h1 h2, aggregate_pairwise txns m⟩

theorem claim_C8_counterexample :
    ¬ (aggregate_time_series exT8 1).Pairwise prodDateLE := by
  intro h
  have hmap : (aggregate_time_series exT8 1).map (fun r => (r.order_date, r.product_code))
      = [((0 : ℤ), "A"), (0, "B"), (1, "A"), (1, "B")] := rfl
  have h2 : ((aggregate_time_series exT8 1).map
      (fun r => (r.order_date, r.product_code))).Pairwise
        (fun a b => strLe a.2 b.2 ∧ (b.2 = a.2 → a.1 ≤ b.1)) :=
    List.Pairwise.map _ (fun a b hab => ⟨hab.1, hab.2⟩) h
  rw [hmap] at h2
  have h3 := (List.pairwise_cons.mp (List.pairwise_cons.mp h2).2).1 ((1 : ℤ), "A") (by simp)
  exact absurd h3.1 (by decide)

theorem claim_C8_witness :
    ∃ q, ({ order_date := 1, product_code := "A", daily_mean_price := some q } : AggRow)
      ∈ aggregate_time_series exT8 1 := by
  refine (claim_C8_density_and_order exT8 1 "A" 1).1 ?_ ?_ ?_
  · have hmap : (aggregate_time_series exT8 1).map (fun r => r.product_code)
        = ["A", "B", "A", "B"] := rfl
    rw [hmap]
    simp
  · exact ⟨{ product_code := "A", order_date := 1, price := some 2 },
      by simp [cleanTxns, exT8], rfl, le_refl 1⟩
  · exact ⟨{ product_code := "A", order_date := 1, price := some 2 },
      by simp [cleanTxns, exT8], rfl, le_refl 1⟩

theorem claim_C3_witness :
    (commonDecision "P" 5 40 80 exDF (18 / 100) (12 / 10)).volatility_score
      = some (volScore exDF.dropLast) := by
  have hcom : resolveMode exDF "P" 5 99 none none 60 = Resolved.common 5 40 80 exDF := by
    norm_num [resolveMode, histAt, productRows, lookupPrice, sliceRows, maxPrice,
      getMaxD, foldMax, exDF, List.insertionSort, List.orderedInsert, List.filter]
  exact (claim_C3_volatility exDF "P" 5 99 none none 60 (18 / 100) (12 / 10) 5 40 80 exDF
    hcom (commonDecision "P" 5 40 80 exDF (18 / 100) (12 / 10))
    (detect_of_common (18 / 100) (12 / 10) hcom)).1
